import Mathlib

/- Verification development for the retrieval-augmented research-analyst
pipeline (final_bot.py): the tolerant structured-output parser, the
ingestion ledger, the ingestion batch, and the analytical orchestrators.
External collaborators (article fetcher, PDF loader, text splitter,
retriever, language model, news search) are modelled as explicit oracle
parameters; Python's json module is modelled by an executable decoder. -/

namespace AnalystSpec

/-- JSON values as produced by Python's json.loads: numbers keep their
source lexeme so no floating-point semantics is needed. -/
inductive JsonVal where
  | null : JsonVal
  | bool (b : Bool) : JsonVal
  | num (lexeme : List Char) : JsonVal
  | str (s : List Char) : JsonVal
  | arr (xs : List JsonVal) : JsonVal
  | obj (kvs : List (List Char × JsonVal)) : JsonVal

def isWsChar (c : Char) : Bool := c = ' ' || c = '\t' || c = '\n' || c = '\r'

def skipWs (l : List Char) : List Char := l.dropWhile isWsChar

def isDigitChar (c : Char) : Bool := '0' ≤ c && c ≤ '9'

/-- Value of one hexadecimal digit (0-9, a-f, A-F by code point). -/
def hexVal (c : Char) : Option Nat :=
  let n := c.toNat
  if 48 ≤ n && n ≤ 57 then some (n - 48)
  else if 97 ≤ n && n ≤ 102 then some (n - 87)
  else if 65 ≤ n && n ≤ 70 then some (n - 55)
  else none

def escChar (c : Char) : Option Char :=
  if c = '"' then some '"'
  else if c = '\\' then some '\\'
  else if c = '/' then some '/'
  else if c = 'n' then some '\n'
  else if c = 't' then some '\t'
  else if c = 'r' then some '\r'
  else if c = 'b' then some (Char.ofNat 8)
  else if c = 'f' then some (Char.ofNat 12)
  else none

/-- Body of a JSON string literal, after the opening quote: returns the
decoded characters and the input remaining after the closing quote.
(Surrogate-pair combination of consecutive unicode escapes is not
modelled; no claim depends on it.) -/
def parseStringBody : Nat → List Char → Option (List Char × List Char)
  | 0, _ => none
  | _, [] => none
  | fuel+1, c :: rest =>
    if c = '"' then some ([], rest)
    else if c = '\\' then
      match rest with
      | [] => none
      | e :: rest2 =>
        if e = 'u' then
          match rest2 with
          | h1 :: h2 :: h3 :: h4 :: rest3 => do
            let a ← hexVal h1
            let b ← hexVal h2
            let cc ← hexVal h3
            let d ← hexVal h4
            let (s, r) ← parseStringBody fuel rest3
            pure (Char.ofNat (((a * 16 + b) * 16 + cc) * 16 + d) :: s, r)
          | _ => none
        else do
          let ec ← escChar e
          let (s, r) ← parseStringBody fuel rest2
          pure (ec :: s, r)
    else if c.toNat < 32 then none
    else do
      let (s, r) ← parseStringBody fuel rest
      pure (c :: s, r)

def splitDigits (l : List Char) : List Char × List Char :=
  (l.takeWhile isDigitChar, l.dropWhile isDigitChar)

/-- Integer part of a JSON number: 0 or a nonzero digit followed by
digits. -/
def intLex : List Char → Option (List Char × List Char)
  | [] => none
  | c :: r =>
    if c = '0' then some (['0'], r)
    else if isDigitChar c then
      let (ds, r2) := splitDigits r
      some (c :: ds, r2)
    else none

/-- Optional fraction group (a dot then digits); consumed only when fully
present. -/
def fracLex (l : List Char) : List Char × List Char :=
  match l with
  | '.' :: r =>
    let (ds, r2) := splitDigits r
    if ds = [] then ([], l) else ('.' :: ds, r2)
  | _ => ([], l)

/-- Optional exponent group (e or E, optional sign, digits); consumed only
when fully present. -/
def expLex (l : List Char) : List Char × List Char :=
  match l with
  | e :: r =>
    if e = 'e' || e = 'E' then
      let (sgn, r1) : List Char × List Char :=
        match r with
        | s :: r2 => if s = '+' || s = '-' then ([s], r2) else ([], r)
        | [] => ([], r)
      let (ds, r2) := splitDigits r1
      if ds = [] then ([], l) else (e :: (sgn ++ ds), r2)
    else ([], l)
  | [] => ([], l)

/-- Lexes a JSON number (sign, int, optional frac/exp) as Python's json
number regex does, returning the lexeme and the rest. -/
def numLexeme (l : List Char) : Option (List Char × List Char) :=
  let (sign, l1) : List Char × List Char :=
    match l with
    | '-' :: r => (['-'], r)
    | _ => ([], l)
  match intLex l1 with
  | none => none
  | some (ip, r1) =>
    let (fp, r2) := fracLex r1
    let (ep, r3) := expLex r2
    some (sign ++ ip ++ fp ++ ep, r3)

/-- Python dict insertion: an existing key keeps its position and takes the
new value, a fresh key is appended. -/
def objInsert (kvs : List (List Char × JsonVal)) (k : List Char) (v : JsonVal) :
    List (List Char × JsonVal) :=
  if kvs.any (fun p => p.1 = k) then
    kvs.map (fun p => if p.1 = k then (k, v) else p)
  else kvs ++ [(k, v)]

mutual

/-- One JSON value (leading whitespace skipped), as Python's json scanner. -/
def parseVal : Nat → List Char → Option (JsonVal × List Char)
  | 0, _ => none
  | fuel+1, l =>
    match skipWs l with
    | [] => none
    | c :: rest =>
      if c = '"' then
        (parseStringBody (rest.length + 1) rest).map (fun p => (.str p.1, p.2))
      else if c = '{' then parseObjMems fuel rest
      else if c = '[' then parseArrElems fuel rest
      else if c = 't' then
        if rest.take 3 = ['r', 'u', 'e'] then some (.bool true, rest.drop 3) else none
      else if c = 'f' then
        if rest.take 4 = ['a', 'l', 's', 'e'] then some (.bool false, rest.drop 4) else none
      else if c = 'n' then
        if rest.take 3 = ['u', 'l', 'l'] then some (.null, rest.drop 3) else none
      else if c = 'N' then
        if rest.take 2 = ['a', 'N'] then some (.num ['N', 'a', 'N'], rest.drop 2) else none
      else if c = 'I' then
        if rest.take 7 = ['n', 'f', 'i', 'n', 'i', 't', 'y'] then
          some (.num ('I' :: ['n', 'f', 'i', 'n', 'i', 't', 'y']), rest.drop 7)
        else none
      else if c = '-' && rest.take 8 = ['I', 'n', 'f', 'i', 'n', 'i', 't', 'y'] then
        some (.num ('-' :: 'I' :: ['n', 'f', 'i', 'n', 'i', 't', 'y']), rest.drop 8)
      else
        (numLexeme (c :: rest)).map (fun p => (.num p.1, p.2))

/-- Members of a JSON object, after the opening brace has been consumed. -/
def parseObjMems : Nat → List Char → Option (JsonVal × List Char)
  | 0, _ => none
  | fuel+1, l =>
    match skipWs l with
    | '}' :: r => some (.obj [], r)
    | l2 => parseObjLoop fuel [] l2

/-- Key-value pairs separated by commas, ending at the closing brace. -/
def parseObjLoop : Nat → List (List Char × JsonVal) → List Char → Option (JsonVal × List Char)
  | 0, _, _ => none
  | fuel+1, acc, l =>
    match skipWs l with
    | '"' :: r => do
      let (k, r1) ← parseStringBody (r.length + 1) r
      match skipWs r1 with
      | ':' :: r2 => do
        let (v, r3) ← parseVal fuel r2
        let acc2 := objInsert acc k v
        match skipWs r3 with
        | ',' :: r4 => parseObjLoop fuel acc2 r4
        | '}' :: r4 => some (.obj acc2, r4)
        | _ => none
      | _ => none
    | _ => none

/-- Elements of a JSON array, after the opening bracket has been consumed. -/
def parseArrElems : Nat → List Char → Option (JsonVal × List Char)
  | 0, _ => none
  | fuel+1, l =>
    match skipWs l with
    | ']' :: r => some (.arr [], r)
    | l2 => parseArrLoop fuel [] l2

/-- Array elements separated by commas, ending at the closing bracket. -/
def parseArrLoop : Nat → List JsonVal → List Char → Option (JsonVal × List Char)
  | 0, _, _ => none
  | fuel+1, acc, l => do
    let (v, r) ← parseVal fuel l
    match skipWs r with
    | ',' :: r2 => parseArrLoop fuel (acc ++ [v]) r2
    | ']' :: r2 => some (.arr (acc ++ [v]), r2)
    | _ => none

end

/-- Python json.loads on a character list: parse one value, then require
only whitespace to remain (the "Extra data" check). A none result models a
raised json.JSONDecodeError. -/
def jsonLoads (l : List Char) : Option JsonVal :=
  match parseVal (2 * l.length + 4) l with
  | some (v, rest) => if skipWs rest = [] then some v else none
  | none => none

/-- Index of the first opening brace in the text, if any. -/
def firstBrace : List Char → Option Nat
  | [] => none
  | c :: cs => if c = '{' then some 0 else (firstBrace cs).map (· + 1)

/-- Index of the last closing brace in the text, if any. -/
def lastBrace : List Char → Option Nat
  | [] => none
  | c :: cs =>
    match lastBrace cs with
    | some j => some (j + 1)
    | none => if c = '}' then some 0 else none

/-- ResearchAnalystModel._clean_json_response (final_bot.py:47-50):
re.search applied to the DOTALL pattern matching an opening brace, any
characters, then a closing brace — the leftmost greedy match runs from the
first opening brace to the last closing brace after it; no match yields
the empty string. -/
def clean_json_response (raw : List Char) : List Char :=
  match firstBrace raw, lastBrace raw with
  | some i, some j => if i < j then (raw.drop i).take (j + 1 - i) else []
  | _, _ => []

/-- The clean-then-decode pattern shared by the analytical orchestrators
(for example final_bot.py:147-154): json.loads applied to
_clean_json_response(answer), with json.JSONDecodeError caught and turned
into a failure value carrying the raw model output. -/
def parse_structured (raw : List Char) : Except (List Char) JsonVal :=
  match jsonLoads (clean_json_response raw) with
  | some v => .ok v
  | none => .error raw

/-- Uncaught Python exception classes that _load_processed_files can let
escape. -/
inductive PyLoadError where
  | typeError : PyLoadError
deriving DecidableEq

/-- Python hashability of a decoded JSON value: lists and dicts are
unhashable, everything else json produces is hashable. -/
def pyHashable : JsonVal → Bool
  | .arr _ => false
  | .obj _ => false
  | _ => true

mutual

/-- Structural equality of decoded JSON values. -/
def jsonEq : JsonVal → JsonVal → Bool
  | .null, .null => true
  | .bool a, .bool b => a == b
  | .num a, .num b => a == b
  | .str a, .str b => a == b
  | .arr xs, .arr ys => jsonEqList xs ys
  | .obj a, .obj b => jsonEqKvs a b
  | _, _ => false

def jsonEqList : List JsonVal → List JsonVal → Bool
  | [], [] => true
  | x :: xs, y :: ys => jsonEq x y && jsonEqList xs ys
  | _, _ => false

def jsonEqKvs : List (List Char × JsonVal) → List (List Char × JsonVal) → Bool
  | [], [] => true
  | (k1, v1) :: xs, (k2, v2) :: ys => k1 == k2 && jsonEq v1 v2 && jsonEqKvs xs ys
  | _, _ => false

end

/-- Set-style deduplication of decoded JSON values, keeping first
occurrences. -/
def pyDedup : List JsonVal → List JsonVal
  | [] => []
  | x :: xs => x :: (pyDedup xs).filter (fun y => !jsonEq x y)

/-- Python set(v) on a decoded JSON value: a string becomes its set of
one-character strings, a list becomes the set of its (hashable) elements,
a dict becomes the set of its keys; null, booleans and numbers are not
iterable and raise TypeError. -/
def pySetOfJson : JsonVal → Except PyLoadError (List JsonVal)
  | .str s => .ok (pyDedup (s.map (fun c => JsonVal.str [c])))
  | .arr xs => if xs.all pyHashable then .ok (pyDedup xs) else .error .typeError
  | .obj kvs => .ok (pyDedup (kvs.map (fun p => JsonVal.str p.1)))
  | _ => .error .typeError

/-- ResearchAnalystModel._load_processed_files (final_bot.py:52-57): a
missing file yields the empty set; otherwise json.load is attempted and
only json.JSONDecodeError is caught (yielding the empty set); the set()
conversion of a successfully decoded non-iterable value raises TypeError,
which no handler catches. The argument is the backing file state: none for
a missing file, some content otherwise. -/
def load_processed_files (file : Option (List Char)) : Except PyLoadError (List JsonVal) :=
  match file with
  | none => .ok []
  | some content =>
    match jsonLoads content with
    | none => .ok []
    | some v => pySetOfJson v

/-- A chunk or raw document: its text and the origin identifier kept in
metadata under the source key. -/
structure Segment where
  text : List Char
  source : String
deriving DecidableEq

/-- External collaborators of ingest_data: newspaper article fetching
(none models a raised fetch/parse exception, otherwise the extracted
article.text), PyMuPDFLoader (none models a raised exception, otherwise
the per-page texts), and RecursiveCharacterTextSplitter.split_text. -/
structure IngestEnv where
  fetch : String → Option (List Char)
  pdfLoad : String → Option (List (List Char))
  split : List Char → List (List Char)

/-- Persistent analyst state: the decoded content of processed_files.json
(the ingestion ledger, as the list of recorded origin identifiers) and the
chunks stored in the Chroma vector index. The json.dump/json.load
round-trip of a list of strings is the stdlib contract, so the ledger file
is modelled by its decoded value; the file-level tolerance of
_load_processed_files is modelled separately by load_processed_files. -/
structure AnalystState where
  ledger : List String
  index : List Segment
deriving DecidableEq

/-- Outcome of one ingest_data call: the resulting state, whether
_save_processed_files was called, and the chunks passed to
vector_store.add_documents (empty when add_documents was not called). -/
structure IngestResult where
  state : AnalystState
  savedLedger : Bool
  addedChunks : List Segment

/-- URL ingestion loop (final_bot.py:79-89): per-URL download and parse
with a bare except, keeping a document only when article.text is
non-empty. -/
def url_documents (env : IngestEnv) (new_urls : List String) : List Segment :=
  new_urls.flatMap fun u =>
    match env.fetch u with
    | some t => if t = [] then [] else [⟨t, u⟩]
    | none => []

/-- PDF ingestion loop (final_bot.py:92-100): per-path load with a bare
except; every page document is kept and its source metadata set. -/
def pdf_documents (env : IngestEnv) (new_pdfs : List String) : List Segment :=
  new_pdfs.flatMap fun p =>
    match env.pdfLoad p with
    | some pages => pages.map (fun t => ⟨t, p⟩)
    | none => []

/-- RecursiveCharacterTextSplitter.split_documents: each document is split
into chunks, each chunk carrying its document's metadata. -/
def split_documents (env : IngestEnv) (docs : List Segment) : List Segment :=
  docs.flatMap fun d => (env.split d.text).map (fun c => ⟨c, d.source⟩)

/-- The ledger gate (final_bot.py:70-71): the origin identifiers of the
batch that are not yet recorded in the ledger. -/
def new_origins (ledger : List String) (ids : List String) : List String :=
  ids.filter (fun x => !ledger.contains x)

/-- The documents list built by one ingest_data call (final_bot.py:77-100):
URL documents first, then PDF page documents, new origins only. -/
def ingest_documents (env : IngestEnv) (st : AnalystState) (urls pdfs : List String) :
    List Segment :=
  url_documents env (new_origins st.ledger urls) ++ pdf_documents env (new_origins st.ledger pdfs)

/-- ResearchAnalystModel.ingest_data (final_bot.py:64-111): filter the
origins through the ledger, return early when nothing is new, acquire
documents per origin (failures skipped), return early when no document was
produced, otherwise split, add the chunks to the index, and save the
ledger extended with every new origin attempted. -/
def ingest_data (env : IngestEnv) (st : AnalystState) (urls pdfs : List String) : IngestResult :=
  let new_urls := new_origins st.ledger urls
  let new_pdfs := new_origins st.ledger pdfs
  if new_urls.isEmpty && new_pdfs.isEmpty then ⟨st, false, []⟩
  else
    let documents := ingest_documents env st urls pdfs
    if documents.isEmpty then ⟨st, false, []⟩
    else
      let docs := split_documents env documents
      ⟨⟨st.ledger ++ new_urls ++ new_pdfs, st.index ++ docs⟩, true, docs⟩

/-- External collaborators of the read path: the unfiltered retriever
(vector_store.as_retriever, default k), the source-filtered retriever
(as_retriever with a source filter and k equal to 5), and the language
model (prompt text in, response text out). -/
structure QueryEnv where
  retrieve : List Char → List Segment
  retrieveFiltered : String → List Char → List Segment
  generate : List Char → List Char

/-- Stuff-documents context assembly: retrieved chunk texts joined by the
default double-newline separator. -/
def join_docs (docs : List Segment) : List Char :=
  "\n\n".data.intercalate (docs.map (fun d => d.text))

/-- Provenance attachment (for example final_bot.py:131 and 150): the
deduplicated list of source metadata values of the retrieved chunks. -/
def source_list (docs : List Segment) : List String :=
  (docs.map (fun d => d.source)).dedup

/-- Result mapping of an analytical call: a successfully parsed JSON value,
a parse-failure mapping carrying an error message and the raw output, an
error-only mapping, or an uncaught Python exception escaping the call. -/
inductive AnalysisResult where
  | parsed (v : JsonVal) : AnalysisResult
  | parseFailure (err : List Char) (raw : List Char) : AnalysisResult
  | errorOnly (err : List Char) : AnalysisResult
  | raised (exnClass : List Char) : AnalysisResult

/-- Q and A prompt (final_bot.py:119-124): system template with the
stuffed context, followed by the human input. -/
def qa_prompt (ctx input : List Char) : List Char :=
  "You are an assistant for question-answering tasks. Use the retrieved context to answer the question. If you don\x27t know, say that you don\x27t know.\n\n".data
    ++ ctx ++ "\n".data ++ input

/-- ask_question result (final_bot.py:133): the answer plus the
deduplicated sources of the context chunks the chain used. -/
structure QAResult where
  answer : List Char
  sources : List String

/-- ResearchAnalystModel.ask_question (final_bot.py:114-133). -/
def ask_question (env : QueryEnv) (query : List Char) : QAResult :=
  let context := env.retrieve query
  ⟨env.generate (qa_prompt (join_docs context) query), source_list context⟩

/-- SWOT prompt template (final_bot.py:138-142) with input and context
substituted. -/
def swot_prompt (input ctx : List Char) : List Char :=
  "Based on the following context about \x27".data ++ input
    ++ "\x27, conduct a SWOT analysis. Present the output as a structured JSON object with keys \x27strengths\x27, \x27weaknesses\x27, \x27opportunities\x27, and \x27threats\x27.\n\nContext:\n".data
    ++ ctx

/-- The raw model answer of the SWOT retrieval chain invocation
(final_bot.py:143-146). -/
def swot_answer (env : QueryEnv) (query_context : List Char) : List Char :=
  env.generate (swot_prompt query_context (join_docs (env.retrieve query_context)))

/-- ResearchAnalystModel.generate_swot_analysis (final_bot.py:135-154):
clean and decode the answer; on success assign the deduplicated context
sources into the decoded dict and return it; on json.JSONDecodeError
return the error mapping with the raw output. Item assignment on a
non-dict value would raise an uncaught TypeError. -/
def generate_swot_analysis (env : QueryEnv) (query_context : List Char) : AnalysisResult :=
  let context := env.retrieve query_context
  match parse_structured (swot_answer env query_context) with
  | .ok (.obj kvs) =>
    .parsed (.obj (objInsert kvs "sources".data
      (.arr ((source_list context).map (fun s => .str s.data)))))
  | .ok _ => .raised "TypeError".data
  | .error raw => .parseFailure "Failed to generate valid SWOT JSON.".data raw

/-- Narrative-evolution prompt template (final_bot.py:167-171) with topic
and the two contexts substituted. -/
def evolution_prompt (topic c1 c2 : List Char) : List Char :=
  "Analyze the evolution of the narrative on \x27".data ++ topic
    ++ "\x27 between two documents. Return a JSON with keys: \x27sentiment_change\x27, \x27new_information\x27, \x27dropped_points\x27, \x27summary_of_evolution\x27.\n\nDocument 1 (Older Context): ".data
    ++ c1 ++ "\n\nDocument 2 (Newer Context): ".data ++ c2

/-- ResearchAnalystModel.track_narrative_evolution (final_bot.py:156-177):
two source-filtered retrievals; if either is empty, return the error
mapping before any generation; otherwise generate once and clean-decode
the content. The second component counts language-model calls. -/
def track_narrative_evolution (env : QueryEnv) (topic : List Char) (url1 url2 : String) :
    AnalysisResult × Nat :=
  let docs1 := env.retrieveFiltered url1 topic
  let docs2 := env.retrieveFiltered url2 topic
  if docs1.isEmpty || docs2.isEmpty then
    (.errorOnly "Could not find relevant context for the topic in one or both URLs.".data, 0)
  else
    let context1 := "\n".data.intercalate (docs1.map (fun d => d.text))
    let context2 := "\n".data.intercalate (docs2.map (fun d => d.text))
    match parse_structured (env.generate (evolution_prompt topic context1 context2)) with
    | .ok v => (.parsed v, 1)
    | .error raw => (.parseFailure "Failed to generate valid Evolution JSON.".data raw, 1)

/-- Investment-memo prompt template (final_bot.py:182-186) with input and
context substituted. -/
def memo_prompt (input ctx : List Char) : List Char :=
  "Based on the context about \x27".data ++ input
    ++ "\x27, generate a professional investment memo. Return a JSON with keys: \x27investment_thesis\x27, \x27positive_catalysts\x27, \x27key_risks\x27, \x27conclusion\x27.\n\nContext:\n".data
    ++ ctx

/-- The raw model answer of the memo retrieval chain invocation
(final_bot.py:187-190). -/
def memo_answer (env : QueryEnv) (query_context : List Char) : List Char :=
  env.generate (memo_prompt query_context (join_docs (env.retrieve query_context)))

/-- ResearchAnalystModel.generate_investment_memo (final_bot.py:179-194):
clean-decode the answer and return the decoded value as the whole result;
on json.JSONDecodeError return the error mapping with the raw output. -/
def generate_investment_memo (env : QueryEnv) (query_context : List Char) : AnalysisResult :=
  match parse_structured (memo_answer env query_context) with
  | .ok v => .parsed v
  | .error raw => .parseFailure "Failed to generate valid Memo JSON.".data raw

/-- External collaborators of get_market_context: the news search (per
query term, the list of article titles, or a raised exception carried as
its message) and the language model (which may also raise). -/
structure MarketEnv where
  news : List Char → Except (List Char) (List (List Char))
  generate : List Char → Except (List Char) (List Char)

/-- One labeled news block (final_bot.py:203-204). -/
def news_block (item : List Char) (titles : List (List Char)) : List Char :=
  "\n--- News about ".data ++ item ++ " ---\n".data ++ "\n".data.intercalate titles

/-- The news accumulation loop (final_bot.py:200-204): one search per
term, in order, appending a labeled block per term; the first raised
exception aborts the loop. -/
def build_news_str (news : List Char → Except (List Char) (List (List Char))) :
    List (List Char) → Except (List Char) (List Char)
  | [] => .ok []
  | item :: rest =>
    match news item with
    | .error e => .error e
    | .ok titles =>
      match build_news_str news rest with
      | .error e => .error e
      | .ok s => .ok (news_block item titles ++ s)

/-- Market-context prompt template (final_bot.py:206-209) with company
name and news substituted. -/
def market_prompt (company news : List Char) : List Char :=
  "You are a market analyst. Based on the recent news, generate a market context report for \x27".data
    ++ company
    ++ "\x27. Return a JSON with keys: \x27overall_sentiment\x27, \x27key_competitor_moves\x27, \x27major_industry_trends\x27.\n\nNEWS:\n".data
    ++ news

/-- The diagnostic mapping produced by the except handler
(final_bot.py:213-214), interpolating the exception text. -/
def market_err (e : List Char) : List Char :=
  "Failed to fetch market news. Error: ".data ++ e

/-- Exception text standing for a json.JSONDecodeError raised while
decoding the market-context response and caught by the blanket handler. -/
def json_decode_exn : List Char := "Expecting value".data

/-- ResearchAnalystModel.get_market_context (final_bot.py:196-214): the
whole body runs under one try; any exception from a news fetch, the
generation call, or json decoding is caught and becomes a single
diagnostic error mapping; otherwise the parsed report is returned. -/
def get_market_context (env : MarketEnv) (company : List Char)
    (competitors : List (List Char)) (industry : List Char) : AnalysisResult :=
  match build_news_str env.news (competitors ++ [industry]) with
  | .error e => .errorOnly (market_err e)
  | .ok news_str =>
    match env.generate (market_prompt company news_str) with
    | .error e => .errorOnly (market_err e)
    | .ok content =>
      match parse_structured content with
      | .ok v => .parsed v
      | .error _ => .errorOnly (market_err json_decode_exn)

/-- Key membership in a decoded JSON mapping. -/
def objHasKey (v : JsonVal) (k : List Char) : Bool :=
  match v with
  | .obj kvs => kvs.any (fun p => p.1 = k)
  | _ => false

/-- Concrete ingestion oracle: origin a fetches text x, every other fetch
raises; PDF loads raise; the splitter keeps each text as one chunk. -/
def envAB : IngestEnv :=
  ⟨fun u => if u = "a" then some "x".data else none, fun _ => none, fun t => [t]⟩

/-- Concrete ingestion oracle whose fetches always succeed. -/
def envOk : IngestEnv :=
  ⟨fun _ => some "hello".data, fun _ => none, fun t => [t]⟩

/-- Concrete ingestion oracle whose acquisitions all fail. -/
def envFail : IngestEnv :=
  ⟨fun _ => none, fun _ => none, fun t => [t]⟩

/-- Concrete ingestion oracle where only the PDF path doc.pdf loads,
yielding one page. -/
def envPdf : IngestEnv :=
  ⟨fun _ => none, fun p => if p = "doc.pdf" then some ["pg".data] else none, fun t => [t]⟩

/-- The empty analyst state. -/
def stEmpty : AnalystState := ⟨[], []⟩

/-- A state whose ledger already records origin u. -/
def stU : AnalystState := ⟨["u"], [⟨"h".data, "u"⟩]⟩

/-- Concrete query oracle: one chunk from origin src1, and a fixed
one-key JSON answer from the model. -/
def envMemo : QueryEnv :=
  ⟨fun _ => [⟨"ctx".data, "src1"⟩], fun _ _ => [⟨"ctx".data, "src1"⟩],
   fun _ => "\x7b\"investment_thesis\": \"t\"\x7d".data⟩

/-- Concrete query oracle: one chunk from origin srcA, and a SWOT answer
carrying only the strengths key. -/
def envSwot : QueryEnv :=
  ⟨fun _ => [⟨"ctx".data, "srcA"⟩], fun _ _ => [⟨"ctx".data, "srcA"⟩],
   fun _ => "\x7b\"strengths\": []\x7d".data⟩

/-- Concrete query oracle whose retrievals are all empty. -/
def envNoDocs : QueryEnv :=
  ⟨fun _ => [], fun _ _ => [], fun _ => "\x7b\x7d".data⟩

/-- Concrete market oracle whose news search always raises. -/
def envNewsFail : MarketEnv :=
  ⟨fun _ => .error "boom".data, fun _ => .ok "\x7b\x7d".data⟩

/-- Concrete market oracle with successful news, generation and decoding. -/
def envMarketOk : MarketEnv :=
  ⟨fun _ => .ok ["t1".data], fun _ => .ok "\x7b\"overall_sentiment\": \"ok\"\x7d".data⟩

lemma firstBrace_get {l : List Char} {i : Nat} (h : firstBrace l = some i) :
    l.get? i = some '{' := by
  induction l generalizing i with
  | nil => simp [firstBrace] at h
  | cons c cs ih =>
    rw [firstBrace] at h
    by_cases hc : c = '{'
    · rw [if_pos hc] at h
      cases h
      simp [hc]
    · rw [if_neg hc] at h
      rw [Option.map_eq_some'] at h
      obtain ⟨i', h1, h2⟩ := h
      subst h2
      simpa using ih h1

lemma firstBrace_of {l : List Char} {i : Nat} (hi : l.get? i = some '{')
    (hmin : ∀ k, k < i → l.get? k ≠ some '{') : firstBrace l = some i := by
  induction l generalizing i with
  | nil => simp at hi
  | cons c cs ih =>
    by_cases hc : c = '{'
    · have hzero : i = 0 := by
        cases i with
        | zero => rfl
        | succ i' =>
          exact absurd (by simp [hc] : (c :: cs).get? 0 = some '{')
            (hmin 0 (Nat.succ_pos i'))
      subst hzero
      simp [firstBrace, hc]
    · cases i with
      | zero =>
        simp at hi
        exact absurd hi hc
      | succ i' =>
        have hi' : cs.get? i' = some '{' := by simpa using hi
        have hmin' : ∀ k, k < i' → cs.get? k ≠ some '{' := by
          intro k hk
          have := hmin (k + 1) (by omega)
          simpa using this
        simp [firstBrace, hc, ih hi' hmin']

lemma lastBrace_get {l : List Char} {j : Nat} (h : lastBrace l = some j) :
    l.get? j = some '}' := by
  induction l generalizing j with
  | nil => simp [lastBrace] at h
  | cons c cs ih =>
    rw [lastBrace] at h
    cases hcs : lastBrace cs with
    | some j' =>
      rw [hcs] at h
      cases h
      simpa using ih hcs
    | none =>
      rw [hcs] at h
      by_cases hc : c = '}'
      · rw [if_pos hc] at h
        cases h
        simp [hc]
      · rw [if_neg hc] at h
        cases h

lemma lastBrace_none {l : List Char} (h : lastBrace l = none) :
    ∀ k, l.get? k ≠ some '}' := by
  induction l with
  | nil => intro k; simp
  | cons c cs ih =>
    rw [lastBrace] at h
    cases hcs : lastBrace cs with
    | some j' => rw [hcs] at h; cases h
    | none =>
      rw [hcs] at h
      by_cases hc : c = '}'
      · rw [if_pos hc] at h; cases h
      · intro k
        cases k with
        | zero => simpa using hc
        | succ k' => simpa using ih hcs k'

lemma lastBrace_of {l : List Char} {j : Nat} (hj : l.get? j = some '}')
    (hmax : ∀ k, j < k → l.get? k ≠ some '}') : lastBrace l = some j := by
  induction l generalizing j with
  | nil => simp at hj
  | cons c cs ih =>
    cases hcs : lastBrace cs with
    | some j' =>
      have h1 : (c :: cs).get? (j' + 1) = some '}' := by
        simpa using lastBrace_get hcs
      have hge : ¬ j < j' + 1 := fun hlt => hmax _ hlt h1
      cases j with
      | zero => exact absurd (Nat.succ_pos j') hge
      | succ j2 =>
        have hj2 : cs.get? j2 = some '}' := by simpa using hj
        have hmax2 : ∀ k, j2 < k → cs.get? k ≠ some '}' := by
          intro k hk
          have := hmax (k + 1) (by omega)
          simpa using this
        have hres := ih hj2 hmax2
        rw [lastBrace, hcs]
        rw [hcs] at hres
        cases hres
        rfl
    | none =>
      have hnone := lastBrace_none hcs
      cases j with
      | succ j2 =>
        have : cs.get? j2 = some '}' := by simpa using hj
        exact absurd this (hnone j2)
      | zero =>
        have hc : c = '}' := by simpa using hj
        simp [lastBrace, hcs, hc]

/-- C1: for every raw model output, the structured-response parse extracts
the substring from the first opening brace to the last closing brace and
attempts JSON decoding of it; when no such span exists or decoding fails
it returns a failure carrying the raw text verbatim, never raising; the
two spec examples behave as stated. -/
theorem claim_C1 :
    (∀ raw : List Char,
      (∀ i j, raw.get? i = some '{' → (∀ k, k < i → raw.get? k ≠ some '{') →
        raw.get? j = some '}' → (∀ k, j < k → raw.get? k ≠ some '}') → i < j →
        clean_json_response raw = (raw.drop i).take (j + 1 - i)) ∧
      ((¬ ∃ i j, i < j ∧ raw.get? i = some '{' ∧ raw.get? j = some '}') →
        parse_structured raw = .error raw) ∧
      (jsonLoads (clean_json_response raw) = none → parse_structured raw = .error raw) ∧
      (∀ v, jsonLoads (clean_json_response raw) = some v → parse_structured raw = .ok v)) ∧
    parse_structured "Here is the result: \x7b\"a\": 1\x7d Thanks!".data
      = .ok (.obj [("a".data, .num "1".data)]) ∧
    parse_structured "no braces here".data = .error "no braces here".data := by
  refine ⟨fun raw => ⟨?_, ?_, ?_, ?_⟩, by rfl, by rfl⟩
  · intro i j hi hmin hj hmax hij
    rw [clean_json_response, firstBrace_of hi hmin, lastBrace_of hj hmax]
    exact if_pos hij
  · intro hno
    have hclean : clean_json_response raw = [] := by
      rw [clean_json_response]
      cases hfb : firstBrace raw with
      | none => rfl
      | some i =>
        cases hlb : lastBrace raw with
        | none => rfl
        | some j =>
          have hij : ¬ i < j := by
            intro hlt
            exact hno ⟨i, j, hlt, firstBrace_get hfb, lastBrace_get hlb⟩
          exact if_neg hij
    rw [parse_structured, hclean]
    rfl
  · intro h
    rw [parse_structured, h]
  · intro v h
    rw [parse_structured, h]

/-- Witness for C1 at concrete inputs. -/
theorem claim_C1_witness :
    clean_json_response "a\x7bb\x7dc".data = ("a\x7bb\x7dc".data.drop 1).take 3 ∧
    parse_structured "xyz".data = .error "xyz".data ∧
    parse_structured "\x7bbad\x7d".data = .error "\x7bbad\x7d".data ∧
    parse_structured " \x7b\x7d ".data = .ok (.obj []) := by
  refine ⟨(claim_C1.1 _).1 1 3 (by decide) ?_ (by decide) ?_ (by decide),
    (claim_C1.1 _).2.1 ?_,
    (claim_C1.1 _).2.2.1 (by rfl),
    (claim_C1.1 _).2.2.2 _ (by rfl)⟩
  · intro k hk
    interval_cases k
    decide
  · intro k hk
    by_cases h5 : k < 5
    · interval_cases k
      decide
    · rw [List.get?_eq_none.mpr (by simpa using by omega : ("a\x7bb\x7dc".data).length ≤ k)]
      simp
  · rintro ⟨i, j, hij, hi, hj⟩
    have : '{' ∈ "xyz".data := List.get?_mem hi
    simp at this

lemma mem_url_documents_inv {env : IngestEnv} {nu : List String} {d : Segment}
    (h : d ∈ url_documents env nu) :
    d.source ∈ nu ∧ env.fetch d.source = some d.text ∧ d.text ≠ [] := by
  rw [url_documents, List.mem_flatMap] at h
  obtain ⟨u, hu, hd⟩ := h
  cases hf : env.fetch u with
  | none => rw [hf] at hd; simp at hd
  | some t =>
    rw [hf] at hd
    by_cases ht : t = []
    · simp [ht] at hd
    · simp [ht] at hd
      subst hd
      exact ⟨hu, hf, ht⟩

lemma mem_url_documents_of {env : IngestEnv} {nu : List String} {u : String} {t : List Char}
    (hu : u ∈ nu) (hf : env.fetch u = some t) (ht : t ≠ []) :
    Segment.mk t u ∈ url_documents env nu := by
  rw [url_documents, List.mem_flatMap]
  refine ⟨u, hu, ?_⟩
  rw [hf]
  simp [ht]

lemma mem_pdf_documents_inv {env : IngestEnv} {np : List String} {d : Segment}
    (h : d ∈ pdf_documents env np) :
    d.source ∈ np ∧ ∃ pages, env.pdfLoad d.source = some pages ∧ d.text ∈ pages := by
  rw [pdf_documents, List.mem_flatMap] at h
  obtain ⟨p, hp, hd⟩ := h
  cases hl : env.pdfLoad p with
  | none => rw [hl] at hd; simp at hd
  | some pages =>
    rw [hl] at hd
    rw [List.mem_map] at hd
    obtain ⟨t, hmem, rfl⟩ := hd
    exact ⟨hp, pages, hl, hmem⟩

lemma mem_pdf_documents_of {env : IngestEnv} {np : List String} {p : String}
    {pages : List (List Char)} {pg : List Char}
    (hp : p ∈ np) (hl : env.pdfLoad p = some pages) (hpg : pg ∈ pages) :
    Segment.mk pg p ∈ pdf_documents env np := by
  rw [pdf_documents, List.mem_flatMap]
  refine ⟨p, hp, ?_⟩
  rw [hl]
  exact List.mem_map_of_mem _ hpg

lemma mem_split_documents_inv {env : IngestEnv} {docs : List Segment} {s : Segment}
    (h : s ∈ split_documents env docs) : ∃ d, d ∈ docs ∧ s.source = d.source := by
  rw [split_documents, List.mem_flatMap] at h
  obtain ⟨d, hd, hs⟩ := h
  rw [List.mem_map] at hs
  obtain ⟨c, _, rfl⟩ := hs
  exact ⟨d, hd, rfl⟩

lemma mem_split_documents_of {env : IngestEnv} {docs : List Segment} {d : Segment}
    {c : List Char} (hd : d ∈ docs) (hc : c ∈ env.split d.text) :
    Segment.mk c d.source ∈ split_documents env docs := by
  rw [split_documents, List.mem_flatMap]
  exact ⟨d, hd, List.mem_map_of_mem _ hc⟩

lemma new_origins_not_mem_of {ledger ids : List String} {x : String} (hx : x ∈ ledger) :
    x ∉ new_origins ledger ids := by
  rw [new_origins]
  intro hmem
  rw [List.mem_filter] at hmem
  simp at hmem
  exact hmem.2 hx

lemma new_origins_mem {ledger ids : List String} {x : String} (hx : x ∈ ids)
    (hnx : x ∉ ledger) : x ∈ new_origins ledger ids := by
  rw [new_origins, List.mem_filter]
  simp [hx, hnx]

lemma new_origins_sub {ledger ids : List String} {x : String}
    (hx : x ∈ new_origins ledger ids) : x ∈ ids ∧ x ∉ ledger := by
  rw [new_origins, List.mem_filter] at hx
  simpa using hx

lemma ingest_data_nil {env : IngestEnv} {st : AnalystState} {urls pdfs : List String}
    (h : ingest_documents env st urls pdfs = []) :
    ingest_data env st urls pdfs = ⟨st, false, []⟩ := by
  rw [ingest_data]
  by_cases h1 : (new_origins st.ledger urls).isEmpty && (new_origins st.ledger pdfs).isEmpty
  · rw [if_pos h1]
  · rw [if_neg h1]
    have h2 : (ingest_documents env st urls pdfs).isEmpty = true := by
      rw [h]; rfl
    rw [if_pos h2]

lemma ingest_data_cons {env : IngestEnv} {st : AnalystState} {urls pdfs : List String}
    (h : ingest_documents env st urls pdfs ≠ []) :
    ingest_data env st urls pdfs =
      ⟨⟨st.ledger ++ new_origins st.ledger urls ++ new_origins st.ledger pdfs,
        st.index ++ split_documents env (ingest_documents env st urls pdfs)⟩, true,
        split_documents env (ingest_documents env st urls pdfs)⟩ := by
  rw [ingest_data]
  have h1 : ¬((new_origins st.ledger urls).isEmpty && (new_origins st.ledger pdfs).isEmpty) := by
    intro hb
    apply h
    rw [Bool.and_eq_true] at hb
    rw [ingest_documents, List.isEmpty_iff.mp hb.1, List.isEmpty_iff.mp hb.2]
    rfl
  rw [if_neg h1]
  have h2 : ¬((ingest_documents env st urls pdfs).isEmpty = true) := by
    rw [List.isEmpty_iff]
    exact h
  rw [if_neg h2]

lemma addedChunks_inv {env : IngestEnv} {st : AnalystState} {urls pdfs : List String}
    {s : Segment} (h : s ∈ (ingest_data env st urls pdfs).addedChunks) :
    ∃ d, d ∈ ingest_documents env st urls pdfs ∧ s.source = d.source := by
  by_cases hd : ingest_documents env st urls pdfs = []
  · rw [ingest_data_nil hd] at h
    simp at h
  · rw [ingest_data_cons hd] at h
    exact mem_split_documents_inv h

/-- C2: ingestion is idempotent per origin identifier, URL or PDF path: a
run that successfully acquires an origin (a URL fetch with non-empty text,
or a PDF load with at least one page) records it in the ledger; an origin
recorded in the ledger is filtered out before acquisition, so no later
ingest_data call adds a segment carrying it; re-running ingest_data on
exactly that origin, as a URL or as a PDF, adds nothing and persists
nothing. -/
theorem claim_C2 :
    (∀ (env : IngestEnv) (st : AnalystState) (urls pdfs : List String) (o : String)
      (t : List Char), o ∈ urls → env.fetch o = some t → t ≠ [] →
      o ∈ (ingest_data env st urls pdfs).state.ledger) ∧
    (∀ (env : IngestEnv) (st : AnalystState) (urls pdfs : List String) (o : String)
      (pages : List (List Char)), o ∈ pdfs → env.pdfLoad o = some pages → pages ≠ [] →
      o ∈ (ingest_data env st urls pdfs).state.ledger) ∧
    (∀ (env : IngestEnv) (st : AnalystState) (urls pdfs : List String) (o : String),
      o ∈ st.ledger →
      ∀ s, s ∈ (ingest_data env st urls pdfs).addedChunks → s.source ≠ o) ∧
    (∀ (env : IngestEnv) (st : AnalystState) (o : String),
      o ∈ st.ledger → ingest_data env st [o] [] = ⟨st, false, []⟩) ∧
    (∀ (env : IngestEnv) (st : AnalystState) (o : String),
      o ∈ st.ledger → ingest_data env st [] [o] = ⟨st, false, []⟩) := by
  refine ⟨?_, ?_, ?_, ?_, ?_⟩
  · intro env st urls pdfs o t ho hf ht
    by_cases hmem : o ∈ st.ledger
    · by_cases hd : ingest_documents env st urls pdfs = []
      · rw [ingest_data_nil hd]
        exact hmem
      · rw [ingest_data_cons hd]
        simp [List.mem_append, hmem]
    · have ho' : o ∈ new_origins st.ledger urls := new_origins_mem ho hmem
      have hdoc := mem_url_documents_of ho' hf ht
      have hd : ingest_documents env st urls pdfs ≠ [] := by
        intro hnil
        rw [ingest_documents] at hnil
        rcases List.append_eq_nil.mp hnil with ⟨h1, _⟩
        rw [h1] at hdoc
        simp at hdoc
      rw [ingest_data_cons hd]
      simp [List.mem_append, ho']
  · intro env st urls pdfs o pages ho hl hpages
    by_cases hmem : o ∈ st.ledger
    · by_cases hd : ingest_documents env st urls pdfs = []
      · rw [ingest_data_nil hd]
        exact hmem
      · rw [ingest_data_cons hd]
        simp [List.mem_append, hmem]
    · have ho' : o ∈ new_origins st.ledger pdfs := new_origins_mem ho hmem
      obtain ⟨pg, hpg⟩ := List.exists_mem_of_ne_nil pages hpages
      have hdoc := mem_pdf_documents_of ho' hl hpg
      have hd : ingest_documents env st urls pdfs ≠ [] := by
        intro hnil
        rw [ingest_documents] at hnil
        rcases List.append_eq_nil.mp hnil with ⟨_, h2⟩
        rw [h2] at hdoc
        simp at hdoc
      rw [ingest_data_cons hd]
      simp [List.mem_append, ho']
  · intro env st urls pdfs o hmem s hs hso
    obtain ⟨d, hd, hsrc⟩ := addedChunks_inv hs
    rw [ingest_documents] at hd
    rcases List.mem_append.mp hd with h1 | h2
    · have hno : o ∈ new_origins st.ledger urls := by
        rw [← hso, hsrc]
        exact (mem_url_documents_inv h1).1
      exact (new_origins_sub hno).2 hmem
    · have hno : o ∈ new_origins st.ledger pdfs := by
        rw [← hso, hsrc]
        exact (mem_pdf_documents_inv h2).1
      exact (new_origins_sub hno).2 hmem
  · intro env st o hmem
    apply ingest_data_nil
    rw [ingest_documents]
    have h1 : new_origins st.ledger [o] = [] := by
      rw [new_origins]
      simp [hmem]
    rw [h1]
    rfl
  · intro env st o hmem
    apply ingest_data_nil
    rw [ingest_documents]
    have h1 : new_origins st.ledger [o] = [] := by
      rw [new_origins]
      simp [hmem]
    rw [h1]
    rfl

/-- Witness for C2 at concrete inputs, covering URL and PDF origins. -/
theorem claim_C2_witness :
    "a" ∈ (ingest_data envOk stEmpty ["a"] []).state.ledger ∧
    "doc.pdf" ∈ (ingest_data envPdf stEmpty [] ["doc.pdf"]).state.ledger ∧
    (Segment.mk "hello".data "v").source ≠ "u" ∧
    ingest_data envOk stU ["u"] [] = ⟨stU, false, []⟩ ∧
    ingest_data envOk stU [] ["u"] = ⟨stU, false, []⟩ := by
  refine ⟨claim_C2.1 envOk stEmpty ["a"] [] "a" "hello".data (by decide) (by rfl) (by decide),
    claim_C2.2.1 envPdf stEmpty [] ["doc.pdf"] "doc.pdf" ["pg".data] (by decide) (by rfl)
      (by decide),
    claim_C2.2.2.1 envOk stU ["u", "v"] [] "u" (by decide) (Segment.mk "hello".data "v")
      (by decide),
    claim_C2.2.2.2.1 envOk stU "u" (by decide),
    claim_C2.2.2.2.2 envOk stU "u" (by decide)⟩

/-- C3 counterexample: in the batch with origins a (succeeds) and b
(acquisition raises), the ledger save happens and records b as well, even
though no document and no segment of b was produced — refuting that
origins whose acquisition fails are not recorded. -/
theorem claim_C3_counterexample :
    envAB.fetch "b" = none ∧
    (ingest_data envAB stEmpty ["a", "b"] []).savedLedger = true ∧
    "b" ∈ (ingest_data envAB stEmpty ["a", "b"] []).state.ledger ∧
    (ingest_data envAB stEmpty ["a", "b"] []).addedChunks = [⟨"x".data, "a"⟩] := by
  exact ⟨rfl, rfl, by decide, rfl⟩

/-- C3 amended: the ledger is saved only when the batch produced at least
one document and its chunks were added to the index, but the save then
records every origin of the batch — including origins whose acquisition
failed, not only the successfully acquired ones. -/
theorem claim_C3 : ∀ (env : IngestEnv) (st : AnalystState) (urls pdfs : List String),
    ((ingest_data env st urls pdfs).savedLedger = false →
      (ingest_data env st urls pdfs).state = st ∧
      (ingest_data env st urls pdfs).addedChunks = []) ∧
    ((ingest_data env st urls pdfs).savedLedger = true ↔
      ingest_documents env st urls pdfs ≠ []) ∧
    ((ingest_data env st urls pdfs).savedLedger = true →
      (ingest_data env st urls pdfs).state.index
        = st.index ++ (ingest_data env st urls pdfs).addedChunks ∧
      (∀ x, x ∈ urls → x ∈ (ingest_data env st urls pdfs).state.ledger) ∧
      (∀ x, x ∈ pdfs → x ∈ (ingest_data env st urls pdfs).state.ledger)) := by
  intro env st urls pdfs
  by_cases hd : ingest_documents env st urls pdfs = []
  · rw [ingest_data_nil hd]
    refine ⟨fun _ => ⟨rfl, rfl⟩, ?_, ?_⟩
    · constructor
      · intro h
        simp at h
      · intro h
        exact absurd hd h
    · intro h
      simp at h
  · rw [ingest_data_cons hd]
    refine ⟨fun h => by simp at h, ⟨fun _ => hd, fun _ => rfl⟩, fun _ => ⟨rfl, ?_, ?_⟩⟩
    · intro x hx
      by_cases hmem : x ∈ st.ledger
      · simp [List.mem_append, hmem]
      · have := new_origins_mem hx hmem
        simp [List.mem_append]
        tauto
    · intro x hx
      by_cases hmem : x ∈ st.ledger
      · simp [List.mem_append, hmem]
      · have := new_origins_mem hx hmem
        simp [List.mem_append]
        tauto

/-- Witness for C3 (amended) at concrete inputs. -/
theorem claim_C3_witness :
    (ingest_data envFail stEmpty ["a"] []).state = stEmpty ∧
    ((ingest_data envAB stEmpty ["a", "b"] []).savedLedger = true ↔
      ingest_documents envAB stEmpty ["a", "b"] [] ≠ []) ∧
    "a" ∈ (ingest_data envAB stEmpty ["a", "b"] []).state.ledger := by
  refine ⟨((claim_C3 envFail stEmpty ["a"] []).1 (by rfl)).1,
    (claim_C3 envAB stEmpty ["a", "b"] []).2.1,
    ((claim_C3 envAB stEmpty ["a", "b"] []).2.2 (by rfl)).2.1 "a" (by decide)⟩

/-- C9: a fetch or parse failure of one origin — one URL or one PDF —
skips only that origin: every other new origin whose acquisition succeeds
still has its chunks added in the same call (and the batch completes with
a ledger save), both for URLs and for PDFs; the failed origin, URL or
PDF, contributes no segment. -/
theorem claim_C9 : ∀ (env : IngestEnv) (st : AnalystState) (urls pdfs : List String),
    (∀ v t, v ∈ urls → v ∉ st.ledger → env.fetch v = some t → t ≠ [] →
      (∀ c, c ∈ env.split t →
        Segment.mk c v ∈ (ingest_data env st urls pdfs).addedChunks ∧
        Segment.mk c v ∈ (ingest_data env st urls pdfs).state.index) ∧
      (ingest_data env st urls pdfs).savedLedger = true) ∧
    (∀ p pages pg, p ∈ pdfs → p ∉ st.ledger → env.pdfLoad p = some pages → pg ∈ pages →
      ∀ c, c ∈ env.split pg →
        Segment.mk c p ∈ (ingest_data env st urls pdfs).addedChunks) ∧
    (∀ u, u ∈ urls → env.fetch u = none → u ∉ pdfs →
      ∀ s, s ∈ (ingest_data env st urls pdfs).addedChunks → s.source ≠ u) ∧
    (∀ p, p ∈ pdfs → env.pdfLoad p = none → p ∉ urls →
      ∀ s, s ∈ (ingest_data env st urls pdfs).addedChunks → s.source ≠ p) := by
  intro env st urls pdfs
  refine ⟨?_, ?_, ?_, ?_⟩
  · intro v t hv hvl hf ht
    have hv' : v ∈ new_origins st.ledger urls := new_origins_mem hv hvl
    have hdoc := mem_url_documents_of hv' hf ht
    have hd : ingest_documents env st urls pdfs ≠ [] := by
      intro hnil
      rw [ingest_documents] at hnil
      rcases List.append_eq_nil.mp hnil with ⟨h1, _⟩
      rw [h1] at hdoc
      simp at hdoc
    have hdocs : Segment.mk t v ∈ ingest_documents env st urls pdfs := by
      rw [ingest_documents]
      exact List.mem_append_left _ hdoc
    rw [ingest_data_cons hd]
    refine ⟨fun c hc => ⟨mem_split_documents_of hdocs hc, ?_⟩, rfl⟩
    exact List.mem_append_right _ (mem_split_documents_of hdocs hc)
  · intro p pages pg hp hpl hload hpg c hc
    have hp' : p ∈ new_origins st.ledger pdfs := new_origins_mem hp hpl
    have hdoc := mem_pdf_documents_of hp' hload hpg
    have hd : ingest_documents env st urls pdfs ≠ [] := by
      intro hnil
      rw [ingest_documents] at hnil
      rcases List.append_eq_nil.mp hnil with ⟨_, h2⟩
      rw [h2] at hdoc
      simp at hdoc
    have hdocs : Segment.mk pg p ∈ ingest_documents env st urls pdfs := by
      rw [ingest_documents]
      exact List.mem_append_right _ hdoc
    rw [ingest_data_cons hd]
    exact mem_split_documents_of hdocs hc
  · intro u hu hf hup s hs hso
    obtain ⟨d, hd, hsrc⟩ := addedChunks_inv hs
    rw [ingest_documents] at hd
    rcases List.mem_append.mp hd with h1 | h2
    · have hinv := mem_url_documents_inv h1
      have : env.fetch u = some d.text := by
        rw [← hso, hsrc] at hf ⊢
        exact hinv.2.1
      rw [hf] at this
      cases this
    · have : u ∈ pdfs := by
        rw [← hso, hsrc] at hup ⊢
        exact (new_origins_sub (mem_pdf_documents_inv h2).1).1
      exact hup this
  · intro p hp hl hpu s hs hso
    obtain ⟨d, hd, hsrc⟩ := addedChunks_inv hs
    rw [ingest_documents] at hd
    rcases List.mem_append.mp hd with h1 | h2
    · have : p ∈ urls := by
        rw [← hso, hsrc] at hpu ⊢
        exact (new_origins_sub (mem_url_documents_inv h1).1).1
      exact hpu this
    · obtain ⟨_, pages, hpl, _⟩ := mem_pdf_documents_inv h2
      have : env.pdfLoad p = some pages := by
        rw [← hso, hsrc] at hl ⊢
        exact hpl
      rw [hl] at this
      cases this

/-- Witness for C9 at concrete inputs, covering URL and PDF failures. -/
theorem claim_C9_witness :
    (Segment.mk "x".data "a" ∈ (ingest_data envAB stEmpty ["a", "b"] []).addedChunks ∧
      Segment.mk "x".data "a" ∈ (ingest_data envAB stEmpty ["a", "b"] []).state.index) ∧
    (ingest_data envAB stEmpty ["a", "b"] []).savedLedger = true ∧
    Segment.mk "pg".data "doc.pdf" ∈ (ingest_data envPdf stEmpty [] ["doc.pdf"]).addedChunks ∧
    (Segment.mk "x".data "a").source ≠ "b" ∧
    (Segment.mk "pg".data "doc.pdf").source ≠ "other.pdf" := by
  refine ⟨((claim_C9 envAB stEmpty ["a", "b"] []).1 "a" "x".data (by decide) (by decide)
      (by rfl) (by decide)).1 "x".data (by decide),
    ((claim_C9 envAB stEmpty ["a", "b"] []).1 "a" "x".data (by decide) (by decide)
      (by rfl) (by decide)).2,
    (claim_C9 envPdf stEmpty [] ["doc.pdf"]).2.1 "doc.pdf" ["pg".data] "pg".data
      (by decide) (by decide) (by rfl) (by decide) "pg".data (by decide),
    (claim_C9 envAB stEmpty ["a", "b"] []).2.2.1 "b" (by decide) (by rfl) (by decide)
      (Segment.mk "x".data "a") (by decide),
    (claim_C9 envPdf stEmpty [] ["doc.pdf", "other.pdf"]).2.2.2 "other.pdf" (by decide)
      (by rfl) (by decide) (Segment.mk "pg".data "doc.pdf") (by decide)⟩

/-- C10: when every supplied origin is already in the ledger, or no new
origin produces a document (every fetch raises or returns empty text and
every PDF load raises or yields no page), ingest_data returns early: the
state is unchanged, nothing is added and nothing is persisted. -/
theorem claim_C10 : ∀ (env : IngestEnv) (st : AnalystState) (urls pdfs : List String),
    ((∀ x, x ∈ urls → x ∈ st.ledger) → (∀ x, x ∈ pdfs → x ∈ st.ledger) →
      ingest_data env st urls pdfs = ⟨st, false, []⟩) ∧
    ((∀ u, u ∈ urls → u ∉ st.ledger → env.fetch u = none ∨ env.fetch u = some []) →
      (∀ p, p ∈ pdfs → p ∉ st.ledger → env.pdfLoad p = none ∨ env.pdfLoad p = some []) →
      ingest_data env st urls pdfs = ⟨st, false, []⟩) := by
  intro env st urls pdfs
  constructor
  · intro hu hp
    apply ingest_data_nil
    rw [ingest_documents]
    have h1 : new_origins st.ledger urls = [] := by
      rw [new_origins, List.filter_eq_nil_iff]
      intro a ha
      simp [hu a ha]
    have h2 : new_origins st.ledger pdfs = [] := by
      rw [new_origins, List.filter_eq_nil_iff]
      intro a ha
      simp [hp a ha]
    rw [h1, h2]
    rfl
  · intro hu hp
    apply ingest_data_nil
    rw [ingest_documents]
    have h1 : url_documents env (new_origins st.ledger urls) = [] := by
      rw [url_documents, List.flatMap_eq_nil_iff]
      intro u hu'
      obtain ⟨hu1, hu2⟩ := new_origins_sub hu'
      rcases hu u hu1 hu2 with h | h <;> simp [h]
    have h2 : pdf_documents env (new_origins st.ledger pdfs) = [] := by
      rw [pdf_documents, List.flatMap_eq_nil_iff]
      intro p hp'
      obtain ⟨hp1, hp2⟩ := new_origins_sub hp'
      rcases hp p hp1 hp2 with h | h <;> simp [h]
    rw [h1, h2]
    rfl

/-- Witness for C10 at concrete inputs. -/
theorem claim_C10_witness :
    ingest_data envOk stU ["u"] [] = ⟨stU, false, []⟩ ∧
    ingest_data envFail stEmpty ["a"] ["p"] = ⟨stEmpty, false, []⟩ := by
  refine ⟨(claim_C10 envOk stU ["u"] []).1 ?_ ?_, (claim_C10 envFail stEmpty ["a"] ["p"]).2 ?_ ?_⟩
  · intro x hx
    rcases List.mem_singleton.mp hx with rfl
    decide
  · intro x hx
    simp at hx
  · intro u _ _
    left
    rfl
  · intro p _ _
    left
    rfl

lemma source_list_nodup (docs : List Segment) : (source_list docs).Nodup :=
  List.nodup_dedup _

lemma mem_source_list {docs : List Segment} {s : String} :
    s ∈ source_list docs ↔ ∃ d, d ∈ docs ∧ d.source = s := by
  simp [source_list, List.mem_dedup, List.mem_map]

lemma objInsert_mem {kvs : List (List Char × JsonVal)} {key k : List Char} {v v' : JsonVal}
    (h : (k, v') ∈ objInsert kvs key v) : k = key ∨ ∃ v0, (k, v0) ∈ kvs := by
  rw [objInsert] at h
  by_cases hany : kvs.any (fun p => p.1 = key)
  · rw [if_pos hany] at h
    rw [List.mem_map] at h
    obtain ⟨p, hp, hpe⟩ := h
    by_cases hpk : p.1 = key
    · rw [if_pos hpk] at hpe
      cases hpe
      exact Or.inl rfl
    · rw [if_neg hpk] at hpe
      right
      exact ⟨v', hpe ▸ hp⟩
  · rw [if_neg hany] at h
    rcases List.mem_append.mp h with h1 | h2
    · right
      exact ⟨v', h1⟩
    · left
      rcases List.mem_singleton.mp h2 with h3
      cases h3
      rfl

lemma objHasKey_objInsert (kvs : List (List Char × JsonVal)) (key : List Char) (v : JsonVal) :
    objHasKey (.obj (objInsert kvs key v)) key = true := by
  show (objInsert kvs key v).any (fun p => p.1 = key) = true
  rw [objInsert]
  by_cases hany : kvs.any (fun p => p.1 = key)
  · rw [if_pos hany]
    rw [List.any_eq_true] at hany ⊢
    obtain ⟨p, hp, hpk⟩ := hany
    refine ⟨(key, v), List.mem_map.mpr ⟨p, hp, ?_⟩, by simp⟩
    rw [if_pos (by simpa using hpk)]
  · rw [if_neg hany]
    rw [List.any_eq_true]
    exact ⟨(key, v), List.mem_append_right _ (List.mem_singleton.mpr rfl), by simp⟩

lemma build_news_str_error {news : List Char → Except (List Char) (List (List Char))}
    {items : List (List Char)} {item e : List Char}
    (hmem : item ∈ items) (he : news item = .error e) :
    ∃ e2, build_news_str news items = .error e2 := by
  induction items with
  | nil => simp at hmem
  | cons a rest ih =>
    cases hna : news a with
    | error e2 =>
      refine ⟨e2, ?_⟩
      simp [build_news_str, hna]
    | ok titles =>
      rcases List.mem_cons.mp hmem with rfl | hrest
      · rw [hna] at he
        simp at he
      · obtain ⟨e2, he2⟩ := ih hrest
        refine ⟨e2, ?_⟩
        simp [build_news_str, hna, he2]

/-- C4 counterexample: a successful investment-memo call returns the
decoded mapping untouched, with no sources field attached — refuting
that every analytical orchestrator attaches provenance. -/
theorem claim_C4_counterexample :
    generate_investment_memo envMemo "q".data
      = .parsed (.obj [("investment_thesis".data, .str "t".data)]) ∧
    objHasKey (.obj [("investment_thesis".data, .str "t".data)]) "sources".data = false := by
  exact ⟨rfl, rfl⟩

/-- C4 amended: Q and A and SWOT attach the deduplicated origins of the
retrieved segments as sources; narrative comparison and investment memo
return the parsed mapping exactly as decoded, without attaching sources. -/
theorem claim_C4 :
    (∀ (env : QueryEnv) (q : List Char),
      (ask_question env q).sources = source_list (env.retrieve q) ∧
      (ask_question env q).sources.Nodup ∧
      (∀ s, s ∈ (ask_question env q).sources ↔ ∃ d, d ∈ env.retrieve q ∧ d.source = s)) ∧
    (∀ (env : QueryEnv) (q : List Char) (kvs : List (List Char × JsonVal)),
      parse_structured (swot_answer env q) = .ok (.obj kvs) →
      generate_swot_analysis env q
        = .parsed (.obj (objInsert kvs "sources".data
            (.arr ((source_list (env.retrieve q)).map (fun s => .str s.data))))) ∧
      objHasKey (.obj (objInsert kvs "sources".data
            (.arr ((source_list (env.retrieve q)).map (fun s => .str s.data)))))
          "sources".data = true) ∧
    (∀ (env : QueryEnv) (q : List Char) (v : JsonVal),
      parse_structured (memo_answer env q) = .ok v →
      generate_investment_memo env q = .parsed v) ∧
    (∀ (env : QueryEnv) (topic : List Char) (url1 url2 : String) (v : JsonVal),
      env.retrieveFiltered url1 topic ≠ [] → env.retrieveFiltered url2 topic ≠ [] →
      parse_structured (env.generate (evolution_prompt topic
        ("\n".data.intercalate ((env.retrieveFiltered url1 topic).map (fun d => d.text)))
        ("\n".data.intercalate ((env.retrieveFiltered url2 topic).map (fun d => d.text)))))
        = .ok v →
      (track_narrative_evolution env topic url1 url2).1 = .parsed v) := by
  refine ⟨?_, ?_, ?_, ?_⟩
  · intro env q
    exact ⟨rfl, source_list_nodup _, fun s => mem_source_list⟩
  · intro env q kvs h
    constructor
    · simp only [generate_swot_analysis, h]
    · exact objHasKey_objInsert kvs "sources".data _
  · intro env q v h
    simp only [generate_investment_memo, h]
  · intro env topic url1 url2 v h1 h2 h
    rw [track_narrative_evolution]
    have e1 : (env.retrieveFiltered url1 topic).isEmpty = false := by
      simpa [List.isEmpty_iff] using h1
    have e2 : (env.retrieveFiltered url2 topic).isEmpty = false := by
      simpa [List.isEmpty_iff] using h2
    simp only [e1, e2, Bool.or_self, Bool.false_eq_true, if_false, h]

/-- Witness for C4 (amended) at concrete inputs. -/
theorem claim_C4_witness :
    (ask_question envMemo "q".data).sources = source_list (envMemo.retrieve "q".data) ∧
    generate_swot_analysis envSwot "q".data
      = .parsed (.obj (objInsert [("strengths".data, .arr [])] "sources".data
          (.arr ((source_list (envSwot.retrieve "q".data)).map (fun s => .str s.data))))) ∧
    generate_investment_memo envMemo "q".data
      = .parsed (.obj [("investment_thesis".data, .str "t".data)]) ∧
    (track_narrative_evolution envMemo "t".data "u1" "u2").1
      = .parsed (.obj [("investment_thesis".data, .str "t".data)]) := by
  refine ⟨(claim_C4.1 envMemo "q".data).1,
    (claim_C4.2.1 envSwot "q".data [("strengths".data, .arr [])] (by rfl)).1,
    claim_C4.2.2.1 envMemo "q".data _ (by rfl),
    claim_C4.2.2.2 envMemo "t".data "u1" "u2" _ (by decide) (by decide) (by rfl)⟩

/-- C5 counterexample: a SWOT call whose model output decodes to a
mapping holding only strengths returns that mapping plus sources — the
threats key is absent, not defaulted to empty — refuting that the result
contains exactly the four enumerated keys. -/
theorem claim_C5_counterexample :
    generate_swot_analysis envSwot "q".data
      = .parsed (.obj [("strengths".data, .arr []),
          ("sources".data, .arr [.str "srcA".data])]) ∧
    objHasKey (.obj [("strengths".data, .arr []),
          ("sources".data, .arr [.str "srcA".data])]) "threats".data = false := by
  exact ⟨rfl, rfl⟩

/-- C5 amended: on a successful decode the SWOT result is exactly the
keys the model emitted with sources set to the deduplicated origins of
the retrieved segments (overwriting any model-emitted sources key);
absent SWOT keys are not defaulted; when retrieval draws from the index,
every listed source is an indexed origin identifier. -/
theorem claim_C5 : ∀ (env : QueryEnv) (index : List Segment) (q : List Char)
    (kvs : List (List Char × JsonVal)),
    parse_structured (swot_answer env q) = .ok (.obj kvs) →
    generate_swot_analysis env q
      = .parsed (.obj (objInsert kvs "sources".data
          (.arr ((source_list (env.retrieve q)).map (fun s => .str s.data))))) ∧
    (∀ k v', (k, v') ∈ objInsert kvs "sources".data
        (.arr ((source_list (env.retrieve q)).map (fun s => .str s.data))) →
      k = "sources".data ∨ ∃ v0, (k, v0) ∈ kvs) ∧
    ((∀ d, d ∈ env.retrieve q → d ∈ index) →
      ∀ s, s ∈ source_list (env.retrieve q) → ∃ d, d ∈ index ∧ d.source = s) := by
  intro env index q kvs h
  refine ⟨?_, fun k v' hk => objInsert_mem hk, fun hsub s hs => ?_⟩
  · simp only [generate_swot_analysis, h]
  · obtain ⟨d, hd, hds⟩ := mem_source_list.mp hs
    exact ⟨d, hsub d hd, hds⟩

/-- Witness for C5 (amended) at concrete inputs. -/
theorem claim_C5_witness :
    generate_swot_analysis envSwot "q".data
      = .parsed (.obj (objInsert [("strengths".data, .arr [])] "sources".data
          (.arr ((source_list (envSwot.retrieve "q".data)).map (fun s => .str s.data))))) ∧
    (∃ d, d ∈ [Segment.mk "ctx".data "srcA"] ∧ d.source = "srcA") := by
  refine ⟨(claim_C5 envSwot [Segment.mk "ctx".data "srcA"] "q".data
      [("strengths".data, .arr [])] (by rfl)).1,
    (claim_C5 envSwot [Segment.mk "ctx".data "srcA"] "q".data
      [("strengths".data, .arr [])] (by rfl)).2.2 (fun d hd => hd) "srcA" (by decide)⟩

/-- C6: when either source-filtered retrieval returns zero segments,
narrative comparison returns the structured error mapping and makes zero
generation calls. -/
theorem claim_C6 : ∀ (env : QueryEnv) (topic : List Char) (url1 url2 : String),
    env.retrieveFiltered url1 topic = [] ∨ env.retrieveFiltered url2 topic = [] →
    track_narrative_evolution env topic url1 url2 =
      (.errorOnly "Could not find relevant context for the topic in one or both URLs.".data,
        0) := by
  intro env topic u1 u2 h
  rw [track_narrative_evolution]
  rcases h with h | h <;> simp [h]

/-- Witness for C6 at a concrete input. -/
theorem claim_C6_witness :
    track_narrative_evolution envNoDocs "t".data "u1" "u2" =
      (.errorOnly "Could not find relevant context for the topic in one or both URLs.".data,
        0) :=
  claim_C6 envNoDocs "t".data "u1" "u2" (Or.inl rfl)

/-- C7: the ledger load tolerates a missing file and undecodable content
by returning the empty set — but a file whose content decodes to a
non-iterable JSON value (here the number 123) raises an uncaught
TypeError, contradicting the claim that loading never fails for every
possible file content. -/
theorem claim_C7 :
    load_processed_files none = .ok [] ∧
    load_processed_files (some "not valid json".data) = .ok [] ∧
    jsonLoads "123".data = some (.num "123".data) ∧
    load_processed_files (some "123".data) = .error .typeError := by
  exact ⟨rfl, rfl, rfl, rfl⟩

/-- C8: every market-context call returns either a single diagnostic
error mapping or the parsed report (it never raises and never returns
partial analytical fields); any news-fetch failure and any generation
failure yields the diagnostic error; when nothing fails the parsed report
is returned. -/
theorem claim_C8 : ∀ (env : MarketEnv) (company : List Char)
    (competitors : List (List Char)) (industry : List Char),
    ((∃ e, get_market_context env company competitors industry = .errorOnly e) ∨
      (∃ v, get_market_context env company competitors industry = .parsed v)) ∧
    ((∃ item e, item ∈ competitors ++ [industry] ∧ env.news item = .error e) →
      ∃ e, get_market_context env company competitors industry = .errorOnly (market_err e)) ∧
    (∀ ns e, build_news_str env.news (competitors ++ [industry]) = .ok ns →
      env.generate (market_prompt company ns) = .error e →
      get_market_context env company competitors industry = .errorOnly (market_err e)) ∧
    (∀ ns content v, build_news_str env.news (competitors ++ [industry]) = .ok ns →
      env.generate (market_prompt company ns) = .ok content →
      parse_structured content = .ok v →
      get_market_context env company competitors industry = .parsed v) := by
  intro env company competitors industry
  refine ⟨?_, ?_, ?_, ?_⟩
  · cases hb : build_news_str env.news (competitors ++ [industry]) with
    | error e =>
      left
      exact ⟨market_err e, by simp [get_market_context, hb]⟩
    | ok ns =>
      cases hg : env.generate (market_prompt company ns) with
      | error e =>
        left
        exact ⟨market_err e, by simp [get_market_context, hb, hg]⟩
      | ok content =>
        cases hp : parse_structured content with
        | ok v =>
          right
          exact ⟨v, by simp [get_market_context, hb, hg, hp]⟩
        | error r =>
          left
          exact ⟨market_err json_decode_exn, by simp [get_market_context, hb, hg, hp]⟩
  · rintro ⟨item, e, hmem, he⟩
    obtain ⟨e2, he2⟩ := build_news_str_error hmem he
    exact ⟨e2, by simp [get_market_context, he2]⟩
  · intro ns e hb hg
    simp [get_market_context, hb, hg]
  · intro ns content v hb hg hp
    simp [get_market_context, hb, hg, hp]

/-- Witness for C8 at concrete inputs. -/
theorem claim_C8_witness :
    (∃ e, get_market_context envNewsFail "co".data [] "ind".data
      = .errorOnly (market_err e)) ∧
    get_market_context envMarketOk "co".data [] "ind".data
      = .parsed (.obj [("overall_sentiment".data, .str "ok".data)]) := by
  refine ⟨(claim_C8 envNewsFail "co".data [] "ind".data).2.1
      ⟨"ind".data, "boom".data, by decide, rfl⟩,
    (claim_C8 envMarketOk "co".data [] "ind".data).2.2.2 _ _ _ (by rfl) (by rfl) (by rfl)⟩

end AnalystSpec
